import Mathlib

/-!
Shallow embedding of `src/bigram.py`: a character-level decoder-only
transformer (token/position embeddings, fused multi-head causal
self-attention, feed-forward blocks, cross-entropy loss, autoregressive
generation), plus the corpus plumbing (vocabulary, encode/decode,
train/validation split, batch windows).

Tensors are modelled as a record of their shape together with a total
indexing function into `ℚ`.  Operations that can raise at run time in
PyTorch (shape checks of `view`, broadcasting of `masked_fill`, index
bounds of embedding lookups, target bounds of `cross_entropy`) return
`Option`, with `none` for the raising executions.  Transcendental scalar
functions evaluated by the floating-point engine (`math.sqrt`, the `exp`
and `log` inside `F.softmax` / `F.cross_entropy`) are taken as explicit
parameters over `ℚ`, since the claims under scrutiny concern shapes,
data flow, and algebraic structure rather than transcendental values.
-/

/-- Hyperparameter `block_size = 30` from the source header. -/
def block_size : Nat := 30

/-- Hyperparameter `n_embed = 40` from the source header. -/
def n_embed : Nat := 40

/-- Hyperparameter `n_head = 4` from the source header. -/
def n_head : Nat := 4

/-- Hyperparameter `n_layer = 3` from the source header. -/
def n_layer : Nat := 3

/-- Hyperparameter `batch_size = 64` from the source header. -/
def batch_size : Nat := 64

/-- Hyperparameter `dropout = 0.2` from the source header. -/
def dropoutRate : ℚ := 1 / 5

/-- Rank-2 integer tensor (token ids), e.g. the `(B, T)` input `idx`. -/
structure T2 where
  B : Nat
  T : Nat
  data : Nat → Nat → Nat

/-- Rank-3 rational tensor, e.g. the `(B, T, C)` activations. -/
structure T3 where
  B : Nat
  T : Nat
  C : Nat
  data : Nat → Nat → Nat → ℚ

/-- Rank-4 rational tensor, e.g. the `(B, nh, T, hs)` per-head tensors. -/
structure T4 where
  d1 : Nat
  d2 : Nat
  d3 : Nat
  d4 : Nat
  data : Nat → Nat → Nat → Nat → ℚ

/-- Rank-2 rational tensor, e.g. the flattened `(B*T, vocab)` logits. -/
structure M2 where
  R : Nat
  C : Nat
  data : Nat → Nat → ℚ

/-- Scalar value of a float tensor entry after `masked_fill(..., -inf)`:
either an ordinary rational or `-infinity`. -/
inductive FVal where
  | ninf : FVal
  | val : ℚ → FVal

/-- Rank-4 tensor over `FVal` (scores after the causal `masked_fill`). -/
structure T4F where
  d1 : Nat
  d2 : Nat
  d3 : Nat
  d4 : Nat
  data : Nat → Nat → Nat → Nat → FVal

/-- Transcendental scalar functions delegated to the numeric engine
(`math.sqrt`; `exp` and `log` inside `F.softmax` and `F.cross_entropy`),
modelled as parameters over `ℚ`. -/
structure RealFns where
  exp : ℚ → ℚ
  log : ℚ → ℚ
  sqrt : ℚ → ℚ

/-- Evaluation of `exp` on a possibly `-infinity` score: `exp(-inf) = 0`. -/
def FVal.expBy (e : ℚ → ℚ) : FVal → ℚ
  | .ninf => 0
  | .val q => e q

/-- Parameters of one `nn.Linear`: weight `(out, in)` and bias. -/
structure LinP where
  w : Nat → Nat → ℚ
  b : Nat → ℚ

/-- Core of `nn.Linear` applied along the last axis of a rank-3 tensor:
`y[b,t,j] = sum_k W[j,k] * x[b,t,k] + bias[j]`. -/
def linear3Core (inF outF : Nat) (p : LinP) (x : T3) : T3 :=
  ⟨x.B, x.T, outF, fun b t j =>
    (∑ k ∈ Finset.range inF, p.w j k * x.data b t k) + p.b j⟩

/-- Application of `nn.Linear(inF, outF)` to a `(B, T, C)` tensor; PyTorch
raises when the input's last dimension differs from the layer's
`in_features`. -/
def linear3 (inF outF : Nat) (p : LinP) (x : T3) : Option T3 :=
  if x.C = inF then some (linear3Core inF outF p x) else none

/-- Result of `tensor.split(chunk, dim=2)` on a `(B, T, 3*chunk)` tensor,
destructured into exactly three pieces as in
`q, k, v = self.attn(x).split(n_embed, dim=2)`. -/
def split3 (chunk : Nat) (x : T3) : Option (T3 × T3 × T3) :=
  if x.C = 3 * chunk then
    some (⟨x.B, x.T, chunk, fun b t c => x.data b t c⟩,
          ⟨x.B, x.T, chunk, fun b t c => x.data b t (chunk + c)⟩,
          ⟨x.B, x.T, chunk, fun b t c => x.data b t (2 * chunk + c)⟩)
  else none

/-- Core of `x.view(B, T, H, S)` on a contiguous `(B, T, C)` tensor with
`C = H * S`: entry `(b, t, h, s)` is the old entry `(b, t, h*S + s)`. -/
def view4Core (H S : Nat) (x : T3) : T4 :=
  ⟨x.B, x.T, H, S, fun b t h s => x.data b t (h * S + s)⟩

/-- The reshape `x.view(B, T, H, S)`; PyTorch raises when the number of
elements does not match. -/
def view4 (H S : Nat) (x : T3) : Option T4 :=
  if x.B * x.T * x.C = x.B * x.T * (H * S) then some (view4Core H S x)
  else none

/-- The transposition `x.transpose(1, 2)` of a rank-4 tensor. -/
def transpose12 (x : T4) : T4 :=
  ⟨x.d1, x.d3, x.d2, x.d4, fun a b c d => x.data a c b d⟩

/-- The transposition `x.transpose(-2, -1)` of a rank-4 tensor. -/
def transpose34 (x : T4) : T4 :=
  ⟨x.d1, x.d2, x.d4, x.d3, fun a b c d => x.data a b d c⟩

/-- Core of batched `x @ y` on rank-4 tensors. -/
def matmul4Core (x y : T4) : T4 :=
  ⟨x.d1, x.d2, x.d3, y.d4, fun a b i j =>
    ∑ k ∈ Finset.range x.d4, x.data a b i k * y.data a b k j⟩

/-- Batched matrix product `x @ y` of `(D1, D2, M, K)` with
`(D1, D2, K, N)`; PyTorch raises on mismatched batch or inner
dimensions. -/
def matmul4 (x y : T4) : Option T4 :=
  if x.d1 = y.d1 ∧ x.d2 = y.d2 ∧ x.d4 = y.d3 then some (matmul4Core x y)
  else none

/-- Multiplication of a rank-4 tensor by a scalar, as in
`... * (1.0 / math.sqrt(k.size(-1)))`. -/
def scale4 (c : ℚ) (x : T4) : T4 :=
  ⟨x.d1, x.d2, x.d3, x.d4, fun a b i j => x.data a b i j * c⟩

/-- One entry of the registered buffer
`tril = torch.tril(torch.ones(block_size, block_size))`:
lower-triangular ones, so entry `(i, j)` is nonzero exactly when
`j ≤ i`. -/
def tril (i j : Nat) : Bool := decide (j ≤ i)

/-- Core of `x.masked_fill(mask, -inf)` with a rank-2 boolean `mask`
expanded against the two trailing axes of a rank-4 tensor (a mask axis of
size 1 is broadcast). -/
def maskedFill4Core (maskR maskC : Nat) (mask : Nat → Nat → Bool) (x : T4) : T4F :=
  ⟨x.d1, x.d2, x.d3, x.d4, fun a b i j =>
    if mask (if maskR = 1 then 0 else i) (if maskC = 1 then 0 else j) then .ninf
    else .val (x.data a b i j)⟩

/-- The fill `x.masked_fill(mask, float('-inf'))` with a rank-2 mask of
shape `(maskR, maskC)`: PyTorch expands the mask to the tensor's shape,
which requires every mask dimension to equal the corresponding trailing
tensor dimension or to be 1; otherwise it raises. -/
def maskedFill4 (maskR maskC : Nat) (mask : Nat → Nat → Bool) (x : T4) : Option T4F :=
  if (maskR = x.d3 ∨ maskR = 1) ∧ (maskC = x.d4 ∨ maskC = 1) then
    some (maskedFill4Core maskR maskC mask x)
  else none

/-- The normalization `F.softmax(x, dim=-1)` on a rank-4 score tensor
containing `-infinity` entries: each entry is exponentiated
(`exp(-inf) = 0`) and divided by its row sum. -/
def softmax4 (e : ℚ → ℚ) (x : T4F) : T4 :=
  ⟨x.d1, x.d2, x.d3, x.d4, fun a b i j =>
    (x.data a b i j).expBy e / ∑ k ∈ Finset.range x.d4, (x.data a b i k).expBy e⟩

/-- One row of `F.softmax(x, dim=-1)` on an ordinary rational tensor of
row length `n`. -/
def softmaxRow (e : ℚ → ℚ) (n : Nat) (p : Nat → ℚ) : Nat → ℚ :=
  fun j => e (p j) / ∑ k ∈ Finset.range n, e (p k)

/-- The regularization `nn.Dropout(p)` on a rank-4 tensor: in training
mode, entries selected by the (externally supplied random) mask are
zeroed and the rest are scaled by `1/(1-p)`; in evaluation mode it is the
identity. -/
def dropout4 (p : ℚ) (training : Bool) (mask : Nat → Nat → Nat → Nat → Bool) (x : T4) : T4 :=
  ⟨x.d1, x.d2, x.d3, x.d4, fun a b i j =>
    if training then (if mask a b i j then 0 else x.data a b i j / (1 - p))
    else x.data a b i j⟩

/-- The regularization `nn.Dropout(p)` on a rank-3 tensor (same semantics
as `dropout4`). -/
def dropout3 (p : ℚ) (training : Bool) (mask : Nat → Nat → Nat → Bool) (x : T3) : T3 :=
  ⟨x.B, x.T, x.C, fun b t c =>
    if training then (if mask b t c then 0 else x.data b t c / (1 - p))
    else x.data b t c⟩

/-- Core of `y.transpose(1, 2).contiguous().view(B, T, C)` for a rank-4
`(B, T, H, S)` tensor flattened back to `(B, T, H*S)`. -/
def view3Core (Cnew : Nat) (x : T4) : T3 :=
  ⟨x.d1, x.d2, Cnew, fun b t c => x.data b t (c / x.d4) (c % x.d4)⟩

/-- The reshape `x.view(B, T, C)` of a contiguous rank-4 `(B, T, H, S)`
tensor; PyTorch raises when the number of elements does not match. -/
def view3 (Cnew : Nat) (x : T4) : Option T3 :=
  if x.d1 * x.d2 * (x.d3 * x.d4) = x.d1 * x.d2 * Cnew then some (view3Core Cnew x)
  else none

/-- Parameters of the fused `MultiHeadAttention` module: the
`attn = nn.Linear(n_embed, 3*n_embed)` projection and the
`proj = nn.Linear(n_embed, n_embed)` output projection. -/
structure MHAP where
  attn : LinP
  proj : LinP

/-- Random dropout masks consumed by one `MultiHeadAttention.forward`
call (`attn_dropout` on the attention weights, `resid_dropout` on the
projected output). -/
structure MHARand where
  attnMask : Nat → Nat → Nat → Nat → Bool
  residMask : Nat → Nat → Nat → Bool

/-- The method `MultiHeadAttention.forward` of `src/bigram.py`
(lines 116-132), with the module's globals `n_embed`, `n_head`,
`block_size` as explicit arguments `nE nH bS`: fused q/k/v projection,
split into heads, scaled dot-product scores, causal `masked_fill` with
the fixed `(bS, bS)` triangular buffer, softmax, attention dropout,
value aggregation, head concatenation, output projection and residual
dropout.  `none` models a raised PyTorch exception. -/
def mhaForward (nE nH bS : Nat) (rf : RealFns) (p : MHAP) (training : Bool)
    (rnd : MHARand) (x : T3) : Option T3 := do
  let qkv ← linear3 nE (3 * nE) p.attn x
  let qkvs ← split3 nE qkv
  let q4 ← view4 nH (x.C / nH) qkvs.1
  let k4 ← view4 nH (x.C / nH) qkvs.2.1
  let v4 ← view4 nH (x.C / nH) qkvs.2.2
  let qh := transpose12 q4
  let kh := transpose12 k4
  let vh := transpose12 v4
  let att ← matmul4 qh (transpose34 kh)
  let att := scale4 (1 / rf.sqrt ((kh.d4 : ℚ))) att
  let attF ← maskedFill4 bS bS (fun i j => ! tril i j) att
  let att := softmax4 rf.exp attF
  let att := dropout4 dropoutRate training rnd.attnMask att
  let y ← matmul4 att vh
  let y ← view3 x.C (transpose12 y)
  let out ← linear3 nE nE p.proj y
  some (dropout3 dropoutRate training rnd.residMask out)

/-- The constructor `MultiHeadAttention.__init__` (lines 108-114): it
builds `nn.Linear(n_embed, 3*n_embed)`, `nn.Linear(n_embed, n_embed)`,
two dropout modules and registers the triangular buffer.  None of these
module constructors validates anything about `n_embed` (in particular
there is no divisibility check against `n_head`), so construction
always succeeds; the record collects the shapes of the created
parameters. -/
structure MHAShapes where
  attnShape : Nat × Nat
  projShape : Nat × Nat
  trilShape : Nat × Nat

def mhaInit (nE : Nat) : Option MHAShapes :=
  some ⟨(3 * nE, nE), (nE, nE), (block_size, block_size)⟩

/-- Parameters of one `nn.LayerNorm(n_embed)`: learned scale and bias. -/
structure LnP where
  g : Nat → ℚ
  be : Nat → ℚ

/-- The epsilon `1e-5` of `nn.LayerNorm`. -/
def lnEps : ℚ := 1 / 100000

/-- Core of `nn.LayerNorm(nF)` on a `(B, T, C)` tensor: per position,
subtract the mean over the embedding axis, divide by the square root of
the biased variance plus epsilon, then apply the learned affine map. -/
def layerNorm3Core (nF : Nat) (rf : RealFns) (p : LnP) (x : T3) : T3 :=
  ⟨x.B, x.T, x.C, fun b t c =>
    (x.data b t c - (∑ k ∈ Finset.range nF, x.data b t k) / (nF : ℚ)) /
      rf.sqrt ((∑ k ∈ Finset.range nF,
        (x.data b t k - (∑ l ∈ Finset.range nF, x.data b t l) / (nF : ℚ)) ^ 2) / (nF : ℚ)
        + lnEps) * p.g c + p.be c⟩

/-- Application of `nn.LayerNorm(nF)`; PyTorch raises when the input's
last dimension differs from the normalized shape. -/
def layerNorm3 (nF : Nat) (rf : RealFns) (p : LnP) (x : T3) : Option T3 :=
  if x.C = nF then some (layerNorm3Core nF rf p x) else none

/-- Elementwise `nn.ReLU()`. -/
def reluT3 (x : T3) : T3 :=
  ⟨x.B, x.T, x.C, fun b t c => max (x.data b t c) 0⟩

/-- Core of pointwise tensor addition. -/
def add3Core (x y : T3) : T3 :=
  ⟨x.B, x.T, x.C, fun b t c => x.data b t c + y.data b t c⟩

/-- Pointwise addition of two tensors of identical shape (the residual
connections `x + self.sa(...)` and `x + self.ffwd(...)`). -/
def add3 (x y : T3) : Option T3 :=
  if x.B = y.B ∧ x.T = y.T ∧ x.C = y.C then some (add3Core x y)
  else none

/-- Parameters of one `FeedForward` module:
`nn.Linear(n_embed, 4*n_embed)` and `nn.Linear(4*n_embed, n_embed)`. -/
structure FFP where
  l1 : LinP
  l2 : LinP

/-- The method `FeedForward.forward` (lines 147-148, with the
`nn.Sequential` defined at lines 140-145): expand, ReLU, project back,
dropout. -/
def ffForward (nE : Nat) (p : FFP) (training : Bool)
    (mask : Nat → Nat → Nat → Bool) (x : T3) : Option T3 := do
  let h ← linear3 nE (4 * nE) p.l1 x
  let h := reluT3 h
  let o ← linear3 (4 * nE) nE p.l2 h
  some (dropout3 dropoutRate training mask o)

/-- Parameters of one transformer `Block`. -/
structure BlockP where
  sa : MHAP
  ln1 : LnP
  ln2 : LnP
  ffw : FFP

/-- Random dropout masks consumed by one `Block.forward` call. -/
structure BlockRand where
  sa : MHARand
  ff : Nat → Nat → Nat → Bool

/-- The method `Block.forward` (lines 164-167):
`x = x + self.sa(self.ln1(x))` then `x = x + self.ffwd(self.ln2(x))`. -/
def blockForward (nE nH bS : Nat) (rf : RealFns) (p : BlockP) (training : Bool)
    (rnd : BlockRand) (x : T3) : Option T3 := do
  let l1 ← layerNorm3 nE rf p.ln1 x
  let a ← mhaForward nE nH bS rf p.sa training rnd.sa l1
  let x1 ← add3 x a
  let l2 ← layerNorm3 nE rf p.ln2 x1
  let f ← ffForward nE p.ffw training rnd.ff l2
  add3 x1 f

/-- The stack `self.blocks = nn.Sequential(*[Block(...) for ...])`
applied to `x` (line 186): block `0` first. -/
def blocksForward (nE nH bS : Nat) (rf : RealFns) (ps : Nat → BlockP)
    (training : Bool) (rnds : Nat → BlockRand) : Nat → T3 → Option T3
  | 0, x => some x
  | n + 1, x => do
      let y ← blocksForward nE nH bS rf ps training rnds n x
      blockForward nE nH bS rf (ps n) training (rnds n) y

/-- Parameters of `BigramLanguageModel`: token and position embedding
tables, the per-layer block parameters, the final layer norm and the
`lm_head` projection. -/
structure BLMP where
  tokEmb : Nat → Nat → ℚ
  posEmb : Nat → Nat → ℚ
  blocks : Nat → BlockP
  lnf : LnP
  lmHead : LinP

/-- The lookup `self.token_embedding_table(idx)` of a `(V, C)` table at a
`(B, T)` integer tensor; PyTorch raises when any id falls outside
`[0, V)`. -/
def embedLookup2 (V C : Nat) (table : Nat → Nat → ℚ) (idx : T2) : Option T3 :=
  if ∀ b ∈ Finset.range idx.B, ∀ t ∈ Finset.range idx.T, idx.data b t < V then
    some ⟨idx.B, idx.T, C, fun b t c => table (idx.data b t) c⟩
  else none

/-- The lookup `self.position_embedding_table(torch.arange(T))` of a
`(bS, C)` table: every index `0..T-1` must lie inside the table, i.e.
`T ≤ bS`; otherwise PyTorch raises. -/
def posEmbed (bS : Nat) (table : Nat → Nat → ℚ) (T : Nat) : Option (Nat → Nat → ℚ) :=
  if T ≤ bS then some (fun t c => table t c) else none

/-- Result of `BigramLanguageModel.forward`: without targets the
`(B, T, V)` logits (and `loss = None`); with targets the logits as
rebound by `logits.view(B*T, C)` together with the scalar loss. -/
inductive FOut where
  | inference (logits : T3)
  | train (logits : M2) (loss : ℚ)

/-- The method `BigramLanguageModel.forward` (lines 180-198): token and
position embeddings are summed, the block stack, the final layer norm
and `lm_head` produce `(B, T, V)` logits; when `targets` is provided,
logits and targets are flattened over batch x time and
`F.cross_entropy` (mean reduction of per-row negative log-softmax at the
target id, raising on out-of-range targets) yields the loss. -/
def blmForward (V : Nat) (rf : RealFns) (p : BLMP) (training : Bool)
    (rnds : Nat → BlockRand) (idx : T2) (targets : Option T2) : Option FOut := do
  let tok ← embedLookup2 V n_embed p.tokEmb idx
  let pos ← posEmbed block_size p.posEmb idx.T
  let x : T3 := ⟨idx.B, idx.T, n_embed, fun b t c => tok.data b t c + pos t c⟩
  let x ← blocksForward n_embed n_head block_size rf p.blocks training rnds n_layer x
  let x ← layerNorm3 n_embed rf p.lnf x
  let logits ← linear3 n_embed V p.lmHead x
  match targets with
  | none => some (.inference logits)
  | some tg =>
      if tg.B * tg.T = logits.B * logits.T then
        let flat : M2 := ⟨logits.B * logits.T, V,
          fun i c => logits.data (i / logits.T) (i % logits.T) c⟩
        let tgFlat : Nat → Nat := fun i => tg.data (i / tg.T) (i % tg.T)
        if ∀ i ∈ Finset.range flat.R, tgFlat i < V then
          some (.train flat
            ((∑ i ∈ Finset.range flat.R,
              -(rf.log (softmaxRow rf.exp V (flat.data i) (tgFlat i)))) / (flat.R : ℚ)))
        else none
      else none

/-- The constructor `BigramLanguageModel.__init__` (lines 172-178): it
builds two `nn.Embedding` tables, the block stack, a final
`nn.LayerNorm` and the `lm_head` linear layer.  `nn.Embedding` and
`nn.Linear` accept any nonnegative sizes (an empty vocabulary yields an
empty `(0, n_embed)` table without raising), so construction always
succeeds; the record collects the shapes of the created parameters. -/
structure BLMShapes where
  tokEmbShape : Nat × Nat
  posEmbShape : Nat × Nat
  numBlocks : Nat
  lmHeadShape : Nat × Nat

def blmInit (V : Nat) : Option BLMShapes :=
  some ⟨(V, n_embed), (block_size, n_embed), n_layer, (V, n_embed)⟩

/-- Inverse-CDF model of `torch.multinomial(probs, num_samples=1)` on a
row of `V` unnormalized probabilities, driven by one externally supplied
uniform variate `u`: the least category whose cumulative mass exceeds
`u` times the total mass, falling back to the last category. -/
def multinomial1 (V : Nat) (p : Nat → ℚ) (u : ℚ) : Nat :=
  ((List.range V).findIdx?
    (fun j => u * (∑ k ∈ Finset.range V, p k) < ∑ k ∈ Finset.range (j + 1), p k)).getD
    (V - 1)

/-- One iteration of the loop in `BigramLanguageModel.generate`
(lines 201-207), specialised to a single sequence (the script generates
from a batch of one row; rows are processed independently): crop the
context to its last `block_size` tokens, run the forward pass without
targets, keep the logits of the final time step, softmax them into a
distribution, sample one id, and append it. -/
def generateStep (V : Nat) (rf : RealFns) (p : BLMP) (training : Bool)
    (rnds : Nat → BlockRand) (u : ℚ) (idx : List Nat) : Option (List Nat) := do
  let cond := idx.drop (idx.length - block_size)
  let out ← blmForward V rf p training rnds
    ⟨1, cond.length, fun _ t => cond.getD t 0⟩ none
  match out with
  | .inference logits =>
      some (idx ++ [multinomial1 V (softmaxRow rf.exp V
        (fun v => logits.data 0 (logits.T - 1) v)) u])
  | .train _ _ => none

/-- The method `BigramLanguageModel.generate` (lines 200-208): iterate
`generateStep` `max_new_tokens` times, threading a stream of uniform
variates (one per sampling step), and return the extended sequence. -/
def generate (V : Nat) (rf : RealFns) (p : BLMP) (training : Bool)
    (rnds : Nat → BlockRand) (rand : Nat → ℚ) : Nat → List Nat → Option (List Nat)
  | 0, idx => some idx
  | k + 1, idx =>
      (generateStep V rf p training rnds (rand k) idx).bind
        (generate V rf p training rnds rand k)

/-- The vocabulary `chars = sorted(set(text))` (line 29): the distinct
characters of the corpus in increasing order.  The corpus is modelled as
its list of characters. -/
def chars (text : List Char) : List Char :=
  List.insertionSort (· ≤ ·) text.dedup

/-- Evaluation of a list comprehension of fallible lookups, as in
`[stoi[ch] for ch in x]`: the first failing lookup aborts the whole
comprehension (Python's `KeyError`). -/
def mapLookup (f : α → Option β) : List α → Option (List β)
  | [] => some []
  | a :: l => do
      let b ← f a
      let bs ← mapLookup f l
      some (b :: bs)

/-- The size `vocab_size = len(chars)` (line 30). -/
def vocab_size (text : List Char) : Nat := (chars text).length

/-- The dictionary lookup `stoi[ch]` (line 33): the id of a character,
`none` modelling Python's `KeyError` for characters outside the
vocabulary. -/
def stoi (text : List Char) (c : Char) : Option Nat :=
  if c ∈ chars text then some ((chars text).indexOf c) else none

/-- The dictionary lookup `itos[i]` (line 34): the character of an id,
`none` modelling Python's `KeyError` for ids outside `[0, vocab_size)`. -/
def itos (text : List Char) (i : Nat) : Option Char :=
  (chars text).get? i

/-- The codec `encode = lambda x: [stoi[ch] for ch in x]` (line 35). -/
def encode (text : List Char) (s : List Char) : Option (List Nat) :=
  mapLookup (stoi text) s

/-- The codec `decode = lambda x: ''.join([itos[i] for i in x])`
(line 36); the joined string is modelled as its character list. -/
def decode (text : List Char) (ids : List Nat) : Option (List Char) :=
  mapLookup (itos text) ids

/-- The encoded corpus `data = torch.tensor(encode(text))` (line 39);
every corpus character is in the vocabulary by construction, so the
per-character lookups all succeed and the result is total. -/
def dataIds (text : List Char) : List Nat :=
  text.map (fun c => (chars text).indexOf c)

/-- The split point `n = int(0.9 * len(data))` (line 40), i.e. the floor
of nine tenths of the corpus length (exact arithmetic model of the
float expression). -/
def splitPoint (text : List Char) : Nat :=
  9 * (dataIds text).length / 10

/-- The slice `train_data = data[:n]` (line 41). -/
def train_data (text : List Char) : List Nat :=
  (dataIds text).take (splitPoint text)

/-- The slice `val_data = data[n:]` (line 42). -/
def val_data (text : List Char) : List Nat :=
  (dataIds text).drop (splitPoint text)

/-- One `(input_window, target_window)` pair of `get_batch`
(lines 48-49) at start offset `i`:
`x = data[i : i+block_size]` and `y = data[i+1 : i+1+block_size]`. -/
def get_batch_pair (data : List Nat) (i : Nat) : List Nat × List Nat :=
  ((data.drop i).take block_size, (data.drop (i + 1)).take block_size)

/-- The function `get_batch` (lines 45-51) for a chosen split sequence,
with the draws of `torch.randint(len(data) - block_size, (batch_size,))`
supplied externally as `ixs`: the stacked input windows and target
windows. -/
def get_batch (data : List Nat) (ixs : List Nat) : List (List Nat) × List (List Nat) :=
  (ixs.map (fun i => (get_batch_pair data i).1),
   ixs.map (fun i => (get_batch_pair data i).2))

/-- Identity instantiation of the transcendental functions, used only to
evaluate closed statements (the structural claims hold for any
instantiation). -/
def rfId : RealFns := ⟨fun q => q, fun q => q, fun q => q⟩

/-- Zero-initialised linear layer. -/
def linZero : LinP := ⟨fun _ _ => 0, fun _ => 0⟩

/-- Zero-initialised attention parameters. -/
def mhapZero : MHAP := ⟨linZero, linZero⟩

/-- All-false dropout masks for one attention call. -/
def mharandZero : MHARand := ⟨fun _ _ _ _ => false, fun _ _ _ => false⟩

/-- Unit layer-norm parameters. -/
def lnpZero : LnP := ⟨fun _ => 1, fun _ => 0⟩

/-- Zero-initialised feed-forward parameters. -/
def ffpZero : FFP := ⟨linZero, linZero⟩

/-- Zero-initialised transformer block parameters. -/
def blockpZero : BlockP := ⟨mhapZero, lnpZero, lnpZero, ffpZero⟩

/-- All-false dropout masks for one block call. -/
def blockrandZero : BlockRand := ⟨mharandZero, fun _ _ _ => false⟩

/-- Zero-initialised language-model parameters. -/
def blmpZero : BLMP := ⟨fun _ _ => 0, fun _ _ => 0, fun _ => blockpZero, lnpZero, linZero⟩

/-- Straight-line core of `MultiHeadAttention.forward` (the value the
method returns on the executions where no PyTorch exception is raised),
with the same step structure as `mhaForward`. -/
def mhaCore (nE nH bS : Nat) (rf : RealFns) (p : MHAP) (training : Bool)
    (rnd : MHARand) (x : T3) : T3 :=
  let qkv := linear3Core nE (3 * nE) p.attn x
  let q3 : T3 := ⟨qkv.B, qkv.T, nE, fun b t c => qkv.data b t c⟩
  let k3 : T3 := ⟨qkv.B, qkv.T, nE, fun b t c => qkv.data b t (nE + c)⟩
  let v3 : T3 := ⟨qkv.B, qkv.T, nE, fun b t c => qkv.data b t (2 * nE + c)⟩
  let qh := transpose12 (view4Core nH (x.C / nH) q3)
  let kh := transpose12 (view4Core nH (x.C / nH) k3)
  let vh := transpose12 (view4Core nH (x.C / nH) v3)
  let att := scale4 (1 / rf.sqrt ((kh.d4 : ℚ))) (matmul4Core qh (transpose34 kh))
  let wei := dropout4 dropoutRate training rnd.attnMask
    (softmax4 rf.exp (maskedFill4Core bS bS (fun i j => ! tril i j) att))
  let y := view3Core x.C (transpose12 (matmul4Core wei vh))
  dropout3 dropoutRate training rnd.residMask (linear3Core nE nE p.proj y)

/-- Straight-line core of `FeedForward.forward`. -/
def ffCore (nE : Nat) (p : FFP) (training : Bool) (mask : Nat → Nat → Nat → Bool)
    (x : T3) : T3 :=
  dropout3 dropoutRate training mask
    (linear3Core (4 * nE) nE p.l2 (reluT3 (linear3Core nE (4 * nE) p.l1 x)))

/-- Straight-line core of `Block.forward`. -/
def blockCore (nE nH bS : Nat) (rf : RealFns) (p : BlockP) (training : Bool)
    (rnd : BlockRand) (x : T3) : T3 :=
  let x1 := add3Core x
    (mhaCore nE nH bS rf p.sa training rnd.sa (layerNorm3Core nE rf p.ln1 x))
  add3Core x1 (ffCore nE p.ffw training rnd.ff (layerNorm3Core nE rf p.ln2 x1))

/-- Straight-line core of the sequential block stack. -/
def blocksCore (nE nH bS : Nat) (rf : RealFns) (ps : Nat → BlockP) (training : Bool)
    (rnds : Nat → BlockRand) : Nat → T3 → T3
  | 0, x => x
  | n + 1, x =>
      blockCore nE nH bS rf (ps n) training (rnds n)
        (blocksCore nE nH bS rf ps training rnds n x)

/-- The summed token and position embeddings feeding the block stack. -/
def embedCore (p : BLMP) (idx : T2) : T3 :=
  ⟨idx.B, idx.T, n_embed, fun b t c => p.tokEmb (idx.data b t) c + p.posEmb t c⟩

/-- The `(B, T, vocab)` logits computed by `BigramLanguageModel.forward`
on the executions where no exception is raised. -/
def logitsCore (V : Nat) (rf : RealFns) (p : BLMP) (training : Bool)
    (rnds : Nat → BlockRand) (idx : T2) : T3 :=
  linear3Core n_embed V p.lmHead (layerNorm3Core n_embed rf p.lnf
    (blocksCore n_embed n_head block_size rf p.blocks training rnds n_layer
      (embedCore p idx)))

/-- The id sampled by one generation step from a cropped context. -/
def stepTok (V : Nat) (rf : RealFns) (p : BLMP) (training : Bool)
    (rnds : Nat → BlockRand) (u : ℚ) (cond : List Nat) : Nat :=
  multinomial1 V (softmaxRow rf.exp V (fun v =>
    (logitsCore V rf p training rnds
      ⟨1, cond.length, fun _ t => cond.getD t 0⟩).data 0 (cond.length - 1) v)) u

/-! ## Lemmas and claim theorems -/

lemma chars_nodup (text : List Char) : (chars text).Nodup :=
  (List.perm_insertionSort _ _).nodup_iff.mpr text.nodup_dedup

lemma mem_chars {text : List Char} {c : Char} : c ∈ chars text ↔ c ∈ text := by
  rw [chars, List.mem_insertionSort, List.mem_dedup]

lemma encode_eq_map (text : List Char) (s : List Char) (h : ∀ c ∈ s, c ∈ chars text) :
    encode text s = some (s.map (fun c => (chars text).indexOf c)) := by
  induction s with
  | nil => simp [encode, mapLookup]
  | cons a s ih =>
      have ha : a ∈ chars text := h a (List.mem_cons_self a s)
      have ih' := ih (fun c hc => h c (List.mem_cons_of_mem a hc))
      rw [encode] at ih' ⊢
      simp [mapLookup, stoi, ha, ih']

lemma decode_map_indexOf (text : List Char) (s : List Char) (h : ∀ c ∈ s, c ∈ chars text) :
    decode text (s.map (fun c => (chars text).indexOf c)) = some s := by
  induction s with
  | nil => simp [decode, mapLookup]
  | cons a s ih =>
      have ha : (chars text).indexOf a < (chars text).length :=
        List.indexOf_lt_length.mpr (h a (List.mem_cons_self a s))
      have ih' := ih (fun c hc => h c (List.mem_cons_of_mem a hc))
      rw [decode] at ih' ⊢
      simp [mapLookup, itos, List.get?_eq_getElem?, List.getElem?_eq_getElem ha,
        List.getElem_indexOf, ih']

/-- Claim C9: round-trip of the character codec: for every string composed
only of characters present in the vocabulary, `decode (encode s) = s`. -/
theorem decode_encode_roundtrip (text s : List Char) (h : ∀ c ∈ s, c ∈ chars text) :
    (encode text s).bind (decode text) = some s := by
  rw [encode_eq_map text s h]
  simpa using decode_map_indexOf text s h

/-- Witness for C9 at a concrete corpus and string. -/
theorem decode_encode_roundtrip_witness :
    (∀ c ∈ (['a', 'b', 'b'] : List Char), c ∈ chars ['b', 'a']) ∧
    (encode ['b', 'a'] ['a', 'b', 'b']).bind (decode ['b', 'a']) = some ['a', 'b', 'b'] :=
  ⟨by decide, decode_encode_roundtrip ['b', 'a'] ['a', 'b', 'b'] (by decide)⟩

lemma decode_encode_exists (text : List Char) (ids : List Nat)
    (h : ∀ i ∈ ids, i < vocab_size text) :
    ∃ s, decode text ids = some s ∧ encode text s = some ids := by
  induction ids with
  | nil => exact ⟨[], by simp [decode, mapLookup], by simp [encode, mapLookup]⟩
  | cons a l ih =>
      have ha : a < (chars text).length := h a (List.mem_cons_self a l)
      obtain ⟨s, hdec, henc⟩ := ih (fun i hi => h i (List.mem_cons_of_mem a hi))
      refine ⟨(chars text).get ⟨a, ha⟩ :: s, ?_, ?_⟩
      · rw [decode] at hdec ⊢
        simp [mapLookup, itos, List.get?_eq_getElem?, List.getElem?_eq_getElem ha, hdec,
          List.get_eq_getElem]
      · have hmem : (chars text).get ⟨a, ha⟩ ∈ chars text := List.get_mem _ _ _
        have hidx : (chars text).indexOf ((chars text).get ⟨a, ha⟩) = a := by
          simpa using List.indexOf_getElem (chars_nodup text) a ha
        rw [encode] at henc ⊢
        simp only [List.get_eq_getElem] at hmem hidx
        simp [mapLookup, stoi, hmem, hidx, henc]

/-- Claim C10: converse round-trip of the codec: for every list of ids in
`[0, vocab_size)`, `encode (decode ids) = ids`. -/
theorem encode_decode_roundtrip (text : List Char) (ids : List Nat)
    (h : ∀ i ∈ ids, i < vocab_size text) :
    (decode text ids).bind (encode text) = some ids := by
  obtain ⟨s, hdec, henc⟩ := decode_encode_exists text ids h
  rw [hdec]
  simpa using henc

/-- Witness for C10 at a concrete corpus and id list. -/
theorem encode_decode_roundtrip_witness :
    (∀ i ∈ ([0, 1, 0] : List Nat), i < vocab_size ['b', 'a']) ∧
    (decode ['b', 'a'] [0, 1, 0]).bind (encode ['b', 'a']) = some [0, 1, 0] :=
  ⟨by decide, encode_decode_roundtrip ['b', 'a'] [0, 1, 0] (by decide)⟩

/-- Claim C8: the train/validation split is deterministic and
non-overlapping: concatenating the two slices reconstructs the encoded
corpus in order, the lengths add up to the corpus length, and the
training slice is the first `floor(0.9 * len)` ids. -/
theorem train_val_split_reconstructs (text : List Char) :
    train_data text ++ val_data text = dataIds text ∧
    (train_data text).length + (val_data text).length = text.length ∧
    (train_data text).length = 9 * text.length / 10 := by
  have hlen : (dataIds text).length = text.length := by simp [dataIds]
  have hle : 9 * text.length / 10 ≤ text.length := by
    have h1 : 9 * text.length / 10 ≤ 10 * text.length / 10 :=
      Nat.div_le_div_right (by omega)
    have h2 : 10 * text.length / 10 = text.length :=
      Nat.mul_div_cancel_left text.length (by norm_num)
    omega
  refine ⟨List.take_append_drop _ _, ?_, ?_⟩
  · rw [train_data, val_data, List.length_take, List.length_drop, splitPoint, hlen]
    omega
  · rw [train_data, List.length_take, splitPoint, hlen]
    omega

lemma window_getD (l : List Nat) (n m t : Nat) (ht : t < m) :
    ((l.drop n).take m).getD t 0 = l.getD (n + t) 0 := by
  rw [List.getD_eq_getElem?_getD, List.getD_eq_getElem?_getD,
    List.getElem?_take_of_lt ht, List.getElem?_drop]

/-- Claim C7: every batch of `get_batch` consists of
`(input_window, target_window)` pairs of length `block_size` at a start
offset in `[0, len - block_size)`, the target window being the input
window shifted by one position in the source sequence. -/
theorem get_batch_windows_shifted (data ixs : List Nat)
    (hlen : block_size < data.length)
    (hix : ∀ i ∈ ixs, i < data.length - block_size) :
    (get_batch data ixs).1.length = ixs.length ∧
    (get_batch data ixs).2.length = ixs.length ∧
    ∀ (j : Nat) (x y : List Nat), (get_batch data ixs).1[j]? = some x →
      (get_batch data ixs).2[j]? = some y →
      ∃ i, ixs[j]? = some i ∧ i < data.length - block_size ∧
        x.length = block_size ∧ y.length = block_size ∧
        (∀ t, t + 1 < block_size → y.getD t 0 = x.getD (t + 1) 0) ∧
        y.getD (block_size - 1) 0 = data.getD (i + block_size) 0 := by
  refine ⟨by simp [get_batch], by simp [get_batch], ?_⟩
  intro j x y hx hy
  simp only [get_batch, List.getElem?_map] at hx hy
  obtain ⟨i, hi, hxi⟩ := Option.map_eq_some'.mp hx
  obtain ⟨i', hi', hyi⟩ := Option.map_eq_some'.mp hy
  rw [hi] at hi'
  obtain rfl : i = i' := Option.some_inj.mp hi'
  have himem : i ∈ ixs := List.getElem?_mem hi
  have hilt : i < data.length - block_size := hix i himem
  refine ⟨i, hi, hilt, ?_, ?_, ?_, ?_⟩
  · rw [← hxi]
    simp [get_batch_pair, List.length_take, List.length_drop]
    omega
  · rw [← hyi]
    simp [get_batch_pair, List.length_take, List.length_drop]
    omega
  · intro t hti
    rw [← hxi, ← hyi, get_batch_pair]
    have h1 : ((data.drop (i + 1)).take block_size).getD t 0 = data.getD (i + 1 + t) 0 :=
      window_getD data (i + 1) block_size t (by omega)
    have h2 : ((data.drop i).take block_size).getD (t + 1) 0 = data.getD (i + (t + 1)) 0 :=
      window_getD data i block_size (t + 1) (by omega)
    rw [h1, h2]
    congr 1
    omega
  · rw [← hyi, get_batch_pair]
    have h1 : ((data.drop (i + 1)).take block_size).getD (block_size - 1) 0 =
        data.getD (i + 1 + (block_size - 1)) 0 :=
      window_getD data (i + 1) block_size (block_size - 1) (by simp [block_size])
    rw [h1]
    congr 1

/-- Witness for C7 at a concrete split sequence and draw. -/
theorem get_batch_windows_shifted_witness :
    block_size < (List.range 40).length ∧
    (∀ i ∈ ([2] : List Nat), i < (List.range 40).length - block_size) ∧
    ((get_batch (List.range 40) [2]).1.length = 1 ∧
      (get_batch (List.range 40) [2]).2.length = 1 ∧
      ∀ (j : Nat) (x y : List Nat), (get_batch (List.range 40) [2]).1[j]? = some x →
        (get_batch (List.range 40) [2]).2[j]? = some y →
        ∃ i, ([2] : List Nat)[j]? = some i ∧
          i < (List.range 40).length - block_size ∧
          x.length = block_size ∧ y.length = block_size ∧
          (∀ t, t + 1 < block_size → y.getD t 0 = x.getD (t + 1) 0) ∧
          y.getD (block_size - 1) 0 = (List.range 40).getD (i + block_size) 0) :=
  ⟨by decide, by decide,
    get_batch_windows_shifted (List.range 40) [2] (by decide) (by decide)⟩

/-- Claim C3 (amended): `MultiHeadAttention.__init__` performs no
divisibility validation, so for an embedding width not divisible by the
head count construction succeeds, and the failure only happens later, in
the forward pass, at the `view(B, T, n_head, C)` reshape. -/
theorem mha_no_divisibility_check (nE nH : Nat) (rf : RealFns) (p : MHAP)
    (training : Bool) (rnd : MHARand) (x : T3)
    (hC : x.C = nE) (hBT : 0 < x.B * x.T) (hdvd : ¬ nH ∣ nE) :
    (mhaInit nE).isSome = true ∧
    mhaForward nE nH block_size rf p training rnd x = none := by
  refine ⟨rfl, ?_⟩
  obtain ⟨B, T, C, d⟩ := x
  simp only at hC hBT
  subst hC
  have hB : B ≠ 0 := by rintro rfl; simp at hBT
  have hT : T ≠ 0 := by rintro rfl; simp at hBT
  have hne : nH * (C / nH) ≠ C := by
    intro h
    exact hdvd ⟨C / nH, h.symm⟩
  have hcond : ¬ (B * T * C = B * T * (nH * (C / nH))) := by
    intro h
    exact hne (Nat.eq_of_mul_eq_mul_left hBT h).symm
  simp [mhaForward, linear3, linear3Core, split3, view4, hcond, hB, hT, hne]
  intro h
  exact absurd h.symm hne

/-- Counterexample to claim C3 as stated: at `n_embed = 41` (not
divisible by `n_head = 4`) construction succeeds, and the forward pass
is where the failure occurs. -/
theorem mha_init_succeeds_on_indivisible :
    ¬ (n_head ∣ 41) ∧ (mhaInit 41).isSome = true ∧
    mhaForward 41 n_head block_size rfId mhapZero false mharandZero
      ⟨1, 1, 41, fun _ _ _ => 0⟩ = none :=
  ⟨by decide, rfl, by rfl⟩

/-- Witness for the amended claim C3 at a concrete configuration. -/
theorem mha_no_divisibility_check_witness :
    ((⟨2, 3, 6, fun _ _ _ => 0⟩ : T3).C = 6 ∧
      0 < (⟨2, 3, 6, fun _ _ _ => 0⟩ : T3).B * (⟨2, 3, 6, fun _ _ _ => 0⟩ : T3).T ∧
      ¬ ((4 : Nat) ∣ 6)) ∧
    ((mhaInit 6).isSome = true ∧
      mhaForward 6 4 block_size rfId mhapZero false mharandZero
        ⟨2, 3, 6, fun _ _ _ => 0⟩ = none) :=
  ⟨⟨rfl, by decide, by decide⟩,
    mha_no_divisibility_check 6 4 rfId mhapZero false mharandZero
      ⟨2, 3, 6, fun _ _ _ => 0⟩ rfl (by decide) (by decide)⟩

/-- Claim C4 (amended): with an empty vocabulary (`vocab_size = 0`) the
model still constructs successfully (PyTorch happily builds an empty
embedding table); instead every forward pass on a nonempty index tensor
fails, because no token id is a valid row of the empty table. -/
theorem blm_empty_vocab_constructs (rf : RealFns) (p : BLMP) (training : Bool)
    (rnds : Nat → BlockRand) (idx : T2) (targets : Option T2)
    (hB : 0 < idx.B) (hT : 0 < idx.T) :
    (blmInit 0).isSome = true ∧
    blmForward 0 rf p training rnds idx targets = none := by
  refine ⟨rfl, ?_⟩
  have hcond : ¬ (∀ b ∈ Finset.range idx.B, ∀ t ∈ Finset.range idx.T, idx.data b t < 0) := by
    intro h
    exact absurd (h 0 (Finset.mem_range.mpr hB) 0 (Finset.mem_range.mpr hT)) (by omega)
  simp [blmForward, embedLookup2, hcond]
  intro h
  exact absurd (h 0 hB 0) (by omega)

/-- Counterexample to claim C4 as stated: on the empty corpus the
vocabulary is empty, yet model construction succeeds; the failure only
appears at forward time. -/
theorem blm_init_succeeds_on_empty_vocab :
    vocab_size [] = 0 ∧ (blmInit 0).isSome = true ∧
    blmForward 0 rfId blmpZero false (fun _ => blockrandZero)
      ⟨1, 1, fun _ _ => 0⟩ none = none :=
  ⟨rfl, rfl, by rfl⟩

/-- Witness for the amended claim C4 at a concrete input. -/
theorem blm_empty_vocab_constructs_witness :
    (0 < (⟨2, 5, fun _ _ => 0⟩ : T2).B ∧ 0 < (⟨2, 5, fun _ _ => 0⟩ : T2).T) ∧
    ((blmInit 0).isSome = true ∧
      blmForward 0 rfId blmpZero false (fun _ => blockrandZero)
        ⟨2, 5, fun _ _ => 0⟩ none = none) :=
  ⟨⟨by decide, by decide⟩,
    blm_empty_vocab_constructs rfId blmpZero false (fun _ => blockrandZero)
      ⟨2, 5, fun _ _ => 0⟩ none (by decide) (by decide)⟩

@[simp] lemma linear3Core_B (inF outF : Nat) (p : LinP) (x : T3) :
    (linear3Core inF outF p x).B = x.B := rfl

@[simp] lemma linear3Core_T (inF outF : Nat) (p : LinP) (x : T3) :
    (linear3Core inF outF p x).T = x.T := rfl

@[simp] lemma linear3Core_C (inF outF : Nat) (p : LinP) (x : T3) :
    (linear3Core inF outF p x).C = outF := rfl

@[simp] lemma view4Core_d1 (H S : Nat) (x : T3) : (view4Core H S x).d1 = x.B := rfl

@[simp] lemma view4Core_d2 (H S : Nat) (x : T3) : (view4Core H S x).d2 = x.T := rfl

@[simp] lemma view4Core_d3 (H S : Nat) (x : T3) : (view4Core H S x).d3 = H := rfl

@[simp] lemma view4Core_d4 (H S : Nat) (x : T3) : (view4Core H S x).d4 = S := rfl

@[simp] lemma transpose12_d1 (x : T4) : (transpose12 x).d1 = x.d1 := rfl

@[simp] lemma transpose12_d2 (x : T4) : (transpose12 x).d2 = x.d3 := rfl

@[simp] lemma transpose12_d3 (x : T4) : (transpose12 x).d3 = x.d2 := rfl

@[simp] lemma transpose12_d4 (x : T4) : (transpose12 x).d4 = x.d4 := rfl

@[simp] lemma transpose34_d1 (x : T4) : (transpose34 x).d1 = x.d1 := rfl

@[simp] lemma transpose34_d2 (x : T4) : (transpose34 x).d2 = x.d2 := rfl

@[simp] lemma transpose34_d3 (x : T4) : (transpose34 x).d3 = x.d4 := rfl

@[simp] lemma transpose34_d4 (x : T4) : (transpose34 x).d4 = x.d3 := rfl

@[simp] lemma matmul4Core_d1 (x y : T4) : (matmul4Core x y).d1 = x.d1 := rfl

@[simp] lemma matmul4Core_d2 (x y : T4) : (matmul4Core x y).d2 = x.d2 := rfl

@[simp] lemma matmul4Core_d3 (x y : T4) : (matmul4Core x y).d3 = x.d3 := rfl

@[simp] lemma matmul4Core_d4 (x y : T4) : (matmul4Core x y).d4 = y.d4 := rfl

@[simp] lemma scale4_d1 (c : ℚ) (x : T4) : (scale4 c x).d1 = x.d1 := rfl

@[simp] lemma scale4_d2 (c : ℚ) (x : T4) : (scale4 c x).d2 = x.d2 := rfl

@[simp] lemma scale4_d3 (c : ℚ) (x : T4) : (scale4 c x).d3 = x.d3 := rfl

@[simp] lemma scale4_d4 (c : ℚ) (x : T4) : (scale4 c x).d4 = x.d4 := rfl

@[simp] lemma maskedFill4Core_d1 (mR mC : Nat) (m : Nat → Nat → Bool) (x : T4) :
    (maskedFill4Core mR mC m x).d1 = x.d1 := rfl

@[simp] lemma maskedFill4Core_d2 (mR mC : Nat) (m : Nat → Nat → Bool) (x : T4) :
    (maskedFill4Core mR mC m x).d2 = x.d2 := rfl

@[simp] lemma maskedFill4Core_d3 (mR mC : Nat) (m : Nat → Nat → Bool) (x : T4) :
    (maskedFill4Core mR mC m x).d3 = x.d3 := rfl

@[simp] lemma maskedFill4Core_d4 (mR mC : Nat) (m : Nat → Nat → Bool) (x : T4) :
    (maskedFill4Core mR mC m x).d4 = x.d4 := rfl

@[simp] lemma softmax4_d1 (e : ℚ → ℚ) (x : T4F) : (softmax4 e x).d1 = x.d1 := rfl

@[simp] lemma softmax4_d2 (e : ℚ → ℚ) (x : T4F) : (softmax4 e x).d2 = x.d2 := rfl

@[simp] lemma softmax4_d3 (e : ℚ → ℚ) (x : T4F) : (softmax4 e x).d3 = x.d3 := rfl

@[simp] lemma softmax4_d4 (e : ℚ → ℚ) (x : T4F) : (softmax4 e x).d4 = x.d4 := rfl

@[simp] lemma dropout4_d1 (p : ℚ) (tr : Bool) (m : Nat → Nat → Nat → Nat → Bool) (x : T4) :
    (dropout4 p tr m x).d1 = x.d1 := rfl

@[simp] lemma dropout4_d2 (p : ℚ) (tr : Bool) (m : Nat → Nat → Nat → Nat → Bool) (x : T4) :
    (dropout4 p tr m x).d2 = x.d2 := rfl

@[simp] lemma dropout4_d3 (p : ℚ) (tr : Bool) (m : Nat → Nat → Nat → Nat → Bool) (x : T4) :
    (dropout4 p tr m x).d3 = x.d3 := rfl

@[simp] lemma dropout4_d4 (p : ℚ) (tr : Bool) (m : Nat → Nat → Nat → Nat → Bool) (x : T4) :
    (dropout4 p tr m x).d4 = x.d4 := rfl

@[simp] lemma dropout3_B (p : ℚ) (tr : Bool) (m : Nat → Nat → Nat → Bool) (x : T3) :
    (dropout3 p tr m x).B = x.B := rfl

@[simp] lemma dropout3_T (p : ℚ) (tr : Bool) (m : Nat → Nat → Nat → Bool) (x : T3) :
    (dropout3 p tr m x).T = x.T := rfl

@[simp] lemma dropout3_C (p : ℚ) (tr : Bool) (m : Nat → Nat → Nat → Bool) (x : T3) :
    (dropout3 p tr m x).C = x.C := rfl

@[simp] lemma view3Core_B (Cnew : Nat) (x : T4) : (view3Core Cnew x).B = x.d1 := rfl

@[simp] lemma view3Core_T (Cnew : Nat) (x : T4) : (view3Core Cnew x).T = x.d2 := rfl

@[simp] lemma view3Core_C (Cnew : Nat) (x : T4) : (view3Core Cnew x).C = Cnew := rfl

@[simp] lemma reluT3_B (x : T3) : (reluT3 x).B = x.B := rfl

@[simp] lemma reluT3_T (x : T3) : (reluT3 x).T = x.T := rfl

@[simp] lemma reluT3_C (x : T3) : (reluT3 x).C = x.C := rfl

@[simp] lemma layerNorm3Core_B (nF : Nat) (rf : RealFns) (p : LnP) (x : T3) :
    (layerNorm3Core nF rf p x).B = x.B := rfl

@[simp] lemma layerNorm3Core_T (nF : Nat) (rf : RealFns) (p : LnP) (x : T3) :
    (layerNorm3Core nF rf p x).T = x.T := rfl

@[simp] lemma layerNorm3Core_C (nF : Nat) (rf : RealFns) (p : LnP) (x : T3) :
    (layerNorm3Core nF rf p x).C = x.C := rfl

lemma mhaForward_eq (nE nH bS : Nat) (rf : RealFns) (p : MHAP) (training : Bool)
    (rnd : MHARand) (x : T3) (h1 : x.C = nE)
    (h2 : x.B * x.T * x.C = x.B * x.T * (nH * (x.C / nH)))
    (h3 : bS = x.T ∨ bS = 1) :
    mhaForward nE nH bS rf p training rnd x =
      some (mhaCore nE nH bS rf p training rnd x) := by
  obtain ⟨B, T, C, d⟩ := x
  simp only at h1 h2 h3
  subst h1
  have h2' : C = nH * (C / nH) ∨ B = 0 ∨ T = 0 := by
    rcases Nat.eq_zero_or_pos B with hB | hB
    · exact Or.inr (Or.inl hB)
    rcases Nat.eq_zero_or_pos T with hT0 | hT0
    · exact Or.inr (Or.inr hT0)
    exact Or.inl (Nat.eq_of_mul_eq_mul_left (Nat.mul_pos hB hT0) h2)
  have h2'' : nH * (C / nH) = C ∨ B = 0 ∨ T = 0 := by
    rcases h2' with h | h
    · exact Or.inl h.symm
    · exact Or.inr h
  simp only [mhaForward, mhaCore, linear3, split3, view4, matmul4, maskedFill4, view3]
  simp [h2', h2'', h3]

lemma mhaForward_none_of_ne (rf : RealFns) (p : MHAP) (training : Bool)
    (rnd : MHARand) (x : T3) (hC : x.C = n_embed) (hT : x.T ≠ block_size) :
    mhaForward n_embed n_head block_size rf p training rnd x = none := by
  obtain ⟨B, T, C, d⟩ := x
  simp only at hC hT
  subst hC
  have hT' : ¬ (block_size = T) := fun h => hT h.symm
  have hT1 : ¬ (block_size = 1) := by simp [block_size]
  simp only [mhaForward, linear3, split3, view4, matmul4, maskedFill4, view3]
  simp [n_embed, n_head, hT', hT1]

/-- Claim C1 (amended): the fixed `(block_size, block_size)` triangular
mask is applied without slicing, so on a `(B, T, n_embed)` input with
`1 ≤ T ≤ block_size` the fused attention forward succeeds exactly when
`T = block_size` (otherwise the `masked_fill` broadcast raises); on the
successful executions the output shape equals the input shape. -/
theorem mha_forward_succeeds_iff_full_block (rf : RealFns) (p : MHAP)
    (training : Bool) (rnd : MHARand) (x : T3)
    (hC : x.C = n_embed) (hpos : 0 < x.T) (hle : x.T ≤ block_size) :
    ((mhaForward n_embed n_head block_size rf p training rnd x).isSome ↔
      x.T = block_size) ∧
    (∀ y, mhaForward n_embed n_head block_size rf p training rnd x = some y →
      y.B = x.B ∧ y.T = x.T ∧ y.C = x.C) := by
  have hfull : x.T = block_size →
      mhaForward n_embed n_head block_size rf p training rnd x =
        some (mhaCore n_embed n_head block_size rf p training rnd x) := by
    intro hT
    refine mhaForward_eq n_embed n_head block_size rf p training rnd x hC ?_ (Or.inl hT.symm)
    rw [hC]
    norm_num [n_embed, n_head]
  constructor
  · constructor
    · intro hs
      by_contra hne
      rw [mhaForward_none_of_ne rf p training rnd x hC hne] at hs
      simp at hs
    · intro hT
      rw [hfull hT]
      rfl
  · intro y hy
    have hT : x.T = block_size := by
      by_contra hne
      rw [mhaForward_none_of_ne rf p training rnd x hC hne] at hy
      cases hy
    rw [hfull hT] at hy
    obtain rfl : mhaCore n_embed n_head block_size rf p training rnd x = y :=
      Option.some_inj.mp hy
    exact ⟨rfl, rfl, hC.symm⟩

/-- Counterexample to claim C1 as stated: a `(1, 1, n_embed)` input has
`1 ≤ T ≤ block_size`, yet the forward pass raises (the unsliced mask
cannot broadcast against the `(B, nh, 1, 1)` score tensor). -/
theorem mha_forward_short_input_fails :
    (1 : Nat) ≤ 1 ∧ (1 : Nat) ≤ block_size ∧
    mhaForward n_embed n_head block_size rfId mhapZero false mharandZero
      ⟨1, 1, n_embed, fun _ _ _ => 0⟩ = none :=
  ⟨le_refl 1, by decide, by rfl⟩

/-- Witness for the amended claim C1 at a full-block input. -/
theorem mha_forward_succeeds_iff_full_block_witness :
    ((⟨1, 30, 40, fun _ _ _ => 0⟩ : T3).C = n_embed ∧
      0 < (⟨1, 30, 40, fun _ _ _ => 0⟩ : T3).T ∧
      (⟨1, 30, 40, fun _ _ _ => 0⟩ : T3).T ≤ block_size) ∧
    (((mhaForward n_embed n_head block_size rfId mhapZero false mharandZero
        ⟨1, 30, 40, fun _ _ _ => 0⟩).isSome ↔
      (⟨1, 30, 40, fun _ _ _ => 0⟩ : T3).T = block_size) ∧
    (∀ y, mhaForward n_embed n_head block_size rfId mhapZero false mharandZero
        ⟨1, 30, 40, fun _ _ _ => 0⟩ = some y →
      y.B = (⟨1, 30, 40, fun _ _ _ => 0⟩ : T3).B ∧
      y.T = (⟨1, 30, 40, fun _ _ _ => 0⟩ : T3).T ∧
      y.C = (⟨1, 30, 40, fun _ _ _ => 0⟩ : T3).C)) :=
  ⟨⟨rfl, by decide, by decide⟩,
    mha_forward_succeeds_iff_full_block rfId mhapZero false mharandZero
      ⟨1, 30, 40, fun _ _ _ => 0⟩ rfl (by decide) (by decide)⟩

@[simp] lemma linear3Core_data (inF outF : Nat) (p : LinP) (x : T3) (b t j : Nat) :
    (linear3Core inF outF p x).data b t j =
      (∑ k ∈ Finset.range inF, p.w j k * x.data b t k) + p.b j := rfl

@[simp] lemma view4Core_data (H S : Nat) (x : T3) (b t h s : Nat) :
    (view4Core H S x).data b t h s = x.data b t (h * S + s) := rfl

@[simp] lemma transpose12_data (x : T4) (a b c e : Nat) :
    (transpose12 x).data a b c e = x.data a c b e := rfl

@[simp] lemma transpose34_data (x : T4) (a b c e : Nat) :
    (transpose34 x).data a b c e = x.data a b e c := rfl

@[simp] lemma matmul4Core_data (x y : T4) (a b i j : Nat) :
    (matmul4Core x y).data a b i j =
      ∑ k ∈ Finset.range x.d4, x.data a b i k * y.data a b k j := rfl

@[simp] lemma scale4_data (c : ℚ) (x : T4) (a b i j : Nat) :
    (scale4 c x).data a b i j = x.data a b i j * c := rfl

@[simp] lemma maskedFill4Core_data (mR mC : Nat) (m : Nat → Nat → Bool) (x : T4)
    (a b i j : Nat) :
    (maskedFill4Core mR mC m x).data a b i j =
      if m (if mR = 1 then 0 else i) (if mC = 1 then 0 else j) then FVal.ninf
      else FVal.val (x.data a b i j) := rfl

@[simp] lemma softmax4_data (e : ℚ → ℚ) (x : T4F) (a b i j : Nat) :
    (softmax4 e x).data a b i j =
      (x.data a b i j).expBy e / ∑ k ∈ Finset.range x.d4, (x.data a b i k).expBy e := rfl

@[simp] lemma dropout4_data_eval (p : ℚ) (m : Nat → Nat → Nat → Nat → Bool) (x : T4)
    (a b i j : Nat) :
    (dropout4 p false m x).data a b i j = x.data a b i j := rfl

@[simp] lemma dropout3_data_eval (p : ℚ) (m : Nat → Nat → Nat → Bool) (x : T3)
    (b t c : Nat) :
    (dropout3 p false m x).data b t c = x.data b t c := rfl

@[simp] lemma view3Core_data (Cnew : Nat) (x : T4) (b t c : Nat) :
    (view3Core Cnew x).data b t c = x.data b t (c / x.d4) (c % x.d4) := rfl

lemma mhaCore_row_agree (nE nH : Nat) (rf : RealFns) (p : MHAP) (rnd : MHARand)
    (x x' : T3) (i : Nat) (hC : x.C = x'.C) (hT : x.T = x'.T)
    (hag : ∀ b j c, j ≤ i → c < nE → x.data b j c = x'.data b j c) :
    ∀ b c, (mhaCore nE nH block_size rf p false rnd x).data b i c =
      (mhaCore nE nH block_size rf p false rnd x').data b i c := by
  intro b c
  have hb1 : ¬ (block_size = 1) := by simp [block_size]
  have hqkv : ∀ t cc, t ≤ i →
      (∑ k ∈ Finset.range nE, p.attn.w cc k * x.data b t k) + p.attn.b cc =
      (∑ k ∈ Finset.range nE, p.attn.w cc k * x'.data b t k) + p.attn.b cc := by
    intro t cc ht
    congr 1
    exact Finset.sum_congr rfl fun k hk =>
      by rw [hag b t k ht (Finset.mem_range.mp hk)]
  simp only [mhaCore]
  simp only [hC, hT]
  simp only [linear3Core_B, linear3Core_T, linear3Core_C, linear3Core_data,
    view4Core_d1, view4Core_d2, view4Core_d3, view4Core_d4, view4Core_data,
    transpose12_d1, transpose12_d2, transpose12_d3, transpose12_d4, transpose12_data,
    transpose34_d1, transpose34_d2, transpose34_d3, transpose34_d4, transpose34_data,
    matmul4Core_d1, matmul4Core_d2, matmul4Core_d3, matmul4Core_d4, matmul4Core_data,
    scale4_d1, scale4_d2, scale4_d3, scale4_d4, scale4_data,
    maskedFill4Core_d1, maskedFill4Core_d2, maskedFill4Core_d3, maskedFill4Core_d4,
    maskedFill4Core_data,
    softmax4_d1, softmax4_d2, softmax4_d3, softmax4_d4, softmax4_data,
    dropout4_d1, dropout4_d2, dropout4_d3, dropout4_d4, dropout4_data_eval,
    dropout3_data_eval, view3Core_data, hC, hT, hb1, if_false]
  congr 1
  refine Finset.sum_congr rfl fun k hk => ?_
  congr 1
  refine Finset.sum_congr rfl fun j hj => ?_
  rcases le_or_lt j i with hji | hji
  · have htril : tril i j = true := by simp [tril, hji]
    congr 1
    · congr 1
      · simp only [htril, Bool.not_true, Bool.false_eq_true, if_false, FVal.expBy]
        congr 1
        congr 1
        refine Finset.sum_congr rfl fun s hs => ?_
        rw [hqkv i _ (le_refl i), hqkv j _ hji]
      · refine Finset.sum_congr rfl fun m hm => ?_
        rcases le_or_lt m i with hmi | hmi
        · have htm : tril i m = true := by simp [tril, hmi]
          simp only [htm, Bool.not_true, Bool.false_eq_true, if_false, FVal.expBy]
          congr 1
          congr 1
          refine Finset.sum_congr rfl fun s hs => ?_
          rw [hqkv i _ (le_refl i), hqkv m _ hmi]
        · have htm : tril i m = false := by simp [tril]; omega
          simp only [htm, Bool.not_false, if_true, FVal.expBy]
    · rw [hqkv j _ hji]
  · have htril : tril i j = false := by simp [tril]; omega
    simp only [htril, Bool.not_false, if_true, FVal.expBy, zero_div, zero_mul]

lemma mhaForward_some_imp (rf : RealFns) (p : MHAP) (training : Bool)
    (rnd : MHARand) (x : T3) (y : T3)
    (h : mhaForward n_embed n_head block_size rf p training rnd x = some y) :
    x.C = n_embed ∧ x.T = block_size := by
  by_cases hC : x.C = n_embed
  · refine ⟨hC, ?_⟩
    by_cases hT : x.T = block_size
    · exact hT
    · rw [mhaForward_none_of_ne rf p training rnd x hC hT] at h
      cases h
  · exfalso
    obtain ⟨B, T, C, d⟩ := x
    simp only at hC
    rw [show mhaForward n_embed n_head block_size rf p training rnd ⟨B, T, C, d⟩ = none by
      simp [mhaForward, linear3, hC]] at h
    cases h

/-- Claim C2: causal masking correctness as a two-run statement: two
inputs to the fused attention forward (evaluation mode) that agree at all
positions `≤ i` produce, whenever both runs return, identical outputs at
position `i` — the output there is invariant to any change of the input
at future positions. -/
theorem mha_causal_invariance (rf : RealFns) (p : MHAP) (rnd : MHARand)
    (x x' : T3) (i : Nat) (hB : x.B = x'.B) (hT : x.T = x'.T) (hC : x.C = x'.C)
    (hag : ∀ b j c, j ≤ i → c < n_embed → x.data b j c = x'.data b j c) :
    ∀ y y', mhaForward n_embed n_head block_size rf p false rnd x = some y →
      mhaForward n_embed n_head block_size rf p false rnd x' = some y' →
      ∀ b c, y.data b i c = y'.data b i c := by
  intro y y' hy hy'
  obtain ⟨hCx, hTx⟩ := mhaForward_some_imp rf p false rnd x y hy
  obtain ⟨hCx', hTx'⟩ := mhaForward_some_imp rf p false rnd x' y' hy'
  have h2 : x.B * x.T * x.C = x.B * x.T * (n_head * (x.C / n_head)) := by
    rw [hCx]
    norm_num [n_embed, n_head]
  have h2' : x'.B * x'.T * x'.C = x'.B * x'.T * (n_head * (x'.C / n_head)) := by
    rw [hCx']
    norm_num [n_embed, n_head]
  rw [mhaForward_eq n_embed n_head block_size rf p false rnd x hCx h2
    (Or.inl hTx.symm)] at hy
  rw [mhaForward_eq n_embed n_head block_size rf p false rnd x' hCx' h2'
    (Or.inl hTx'.symm)] at hy'
  obtain rfl := Option.some_inj.mp hy
  obtain rfl := Option.some_inj.mp hy'
  exact mhaCore_row_agree n_embed n_head rf p rnd x x' i hC hT hag

/-- Witness for C2: two concrete full-block inputs agreeing at position 0
and differing at every later position. -/
theorem mha_causal_invariance_witness :
    (∀ b j c, j ≤ 0 → c < n_embed →
      (⟨1, 30, 40, fun _ t _ => if t = 0 then 1 else 0⟩ : T3).data b j c =
      (⟨1, 30, 40, fun _ t _ => if t = 0 then 1 else 2⟩ : T3).data b j c) ∧
    (∀ y y', mhaForward n_embed n_head block_size rfId mhapZero false mharandZero
        ⟨1, 30, 40, fun _ t _ => if t = 0 then 1 else 0⟩ = some y →
      mhaForward n_embed n_head block_size rfId mhapZero false mharandZero
        ⟨1, 30, 40, fun _ t _ => if t = 0 then 1 else 2⟩ = some y' →
      ∀ b c, y.data b 0 c = y'.data b 0 c) :=
  ⟨by
    intro b j c hj hc
    obtain rfl := Nat.le_zero.mp hj
    rfl,
   mha_causal_invariance rfId mhapZero mharandZero
    ⟨1, 30, 40, fun _ t _ => if t = 0 then 1 else 0⟩
    ⟨1, 30, 40, fun _ t _ => if t = 0 then 1 else 2⟩ 0 rfl rfl rfl
    (by
      intro b j c hj hc
      obtain rfl := Nat.le_zero.mp hj
      rfl)⟩

@[simp] lemma add3Core_B (x y : T3) : (add3Core x y).B = x.B := rfl

@[simp] lemma add3Core_T (x y : T3) : (add3Core x y).T = x.T := rfl

@[simp] lemma add3Core_C (x y : T3) : (add3Core x y).C = x.C := rfl

@[simp] lemma mhaCore_B (nE nH bS : Nat) (rf : RealFns) (p : MHAP) (tr : Bool)
    (rnd : MHARand) (x : T3) : (mhaCore nE nH bS rf p tr rnd x).B = x.B := rfl

@[simp] lemma mhaCore_T (nE nH bS : Nat) (rf : RealFns) (p : MHAP) (tr : Bool)
    (rnd : MHARand) (x : T3) : (mhaCore nE nH bS rf p tr rnd x).T = x.T := rfl

@[simp] lemma mhaCore_C (nE nH bS : Nat) (rf : RealFns) (p : MHAP) (tr : Bool)
    (rnd : MHARand) (x : T3) : (mhaCore nE nH bS rf p tr rnd x).C = nE := rfl

@[simp] lemma ffCore_B (nE : Nat) (p : FFP) (tr : Bool) (m : Nat → Nat → Nat → Bool)
    (x : T3) : (ffCore nE p tr m x).B = x.B := rfl

@[simp] lemma ffCore_T (nE : Nat) (p : FFP) (tr : Bool) (m : Nat → Nat → Nat → Bool)
    (x : T3) : (ffCore nE p tr m x).T = x.T := rfl

@[simp] lemma ffCore_C (nE : Nat) (p : FFP) (tr : Bool) (m : Nat → Nat → Nat → Bool)
    (x : T3) : (ffCore nE p tr m x).C = nE := rfl

@[simp] lemma blockCore_B (nE nH bS : Nat) (rf : RealFns) (p : BlockP) (tr : Bool)
    (rnd : BlockRand) (x : T3) : (blockCore nE nH bS rf p tr rnd x).B = x.B := rfl

@[simp] lemma blockCore_T (nE nH bS : Nat) (rf : RealFns) (p : BlockP) (tr : Bool)
    (rnd : BlockRand) (x : T3) : (blockCore nE nH bS rf p tr rnd x).T = x.T := rfl

@[simp] lemma blockCore_C (nE nH bS : Nat) (rf : RealFns) (p : BlockP) (tr : Bool)
    (rnd : BlockRand) (x : T3) : (blockCore nE nH bS rf p tr rnd x).C = x.C := rfl

@[simp] lemma blocksCore_B (nE nH bS : Nat) (rf : RealFns) (ps : Nat → BlockP)
    (tr : Bool) (rnds : Nat → BlockRand) (n : Nat) (x : T3) :
    (blocksCore nE nH bS rf ps tr rnds n x).B = x.B := by
  induction n with
  | zero => rfl
  | succ n ih => simp [blocksCore, ih]

@[simp] lemma blocksCore_T (nE nH bS : Nat) (rf : RealFns) (ps : Nat → BlockP)
    (tr : Bool) (rnds : Nat → BlockRand) (n : Nat) (x : T3) :
    (blocksCore nE nH bS rf ps tr rnds n x).T = x.T := by
  induction n with
  | zero => rfl
  | succ n ih => simp [blocksCore, ih]

@[simp] lemma blocksCore_C (nE nH bS : Nat) (rf : RealFns) (ps : Nat → BlockP)
    (tr : Bool) (rnds : Nat → BlockRand) (n : Nat) (x : T3) :
    (blocksCore nE nH bS rf ps tr rnds n x).C = x.C := by
  induction n with
  | zero => rfl
  | succ n ih => simp [blocksCore, ih]

@[simp] lemma embedCore_B (p : BLMP) (idx : T2) : (embedCore p idx).B = idx.B := rfl

@[simp] lemma embedCore_T (p : BLMP) (idx : T2) : (embedCore p idx).T = idx.T := rfl

@[simp] lemma embedCore_C (p : BLMP) (idx : T2) : (embedCore p idx).C = n_embed := rfl

lemma ffForward_eq (nE : Nat) (p : FFP) (training : Bool)
    (mask : Nat → Nat → Nat → Bool) (x : T3) (h : x.C = nE) :
    ffForward nE p training mask x = some (ffCore nE p training mask x) := by
  simp [ffForward, linear3, ffCore, h]

lemma blockForward_eq (rf : RealFns) (p : BlockP) (training : Bool)
    (rnd : BlockRand) (x : T3) (hC : x.C = n_embed) (hT : x.T = block_size) :
    blockForward n_embed n_head block_size rf p training rnd x =
      some (blockCore n_embed n_head block_size rf p training rnd x) := by
  have hln1 : layerNorm3 n_embed rf p.ln1 x =
      some (layerNorm3Core n_embed rf p.ln1 x) := by
    simp [layerNorm3, hC]
  have hmha : mhaForward n_embed n_head block_size rf p.sa training rnd.sa
      (layerNorm3Core n_embed rf p.ln1 x) =
      some (mhaCore n_embed n_head block_size rf p.sa training rnd.sa
        (layerNorm3Core n_embed rf p.ln1 x)) := by
    refine mhaForward_eq n_embed n_head block_size rf p.sa training rnd.sa _
      (by simp [hC]) ?_ (Or.inl (by simp [hT]))
    simp [hC]
    norm_num [n_embed, n_head]
  have hadd1 : add3 x (mhaCore n_embed n_head block_size rf p.sa training rnd.sa
      (layerNorm3Core n_embed rf p.ln1 x)) =
      some (add3Core x (mhaCore n_embed n_head block_size rf p.sa training rnd.sa
        (layerNorm3Core n_embed rf p.ln1 x))) := by
    simp [add3, hC]
  have hln2 : layerNorm3 n_embed rf p.ln2 (add3Core x
      (mhaCore n_embed n_head block_size rf p.sa training rnd.sa
        (layerNorm3Core n_embed rf p.ln1 x))) =
      some (layerNorm3Core n_embed rf p.ln2 (add3Core x
        (mhaCore n_embed n_head block_size rf p.sa training rnd.sa
          (layerNorm3Core n_embed rf p.ln1 x)))) := by
    simp [layerNorm3, hC]
  have hff : ffForward n_embed p.ffw training rnd.ff
      (layerNorm3Core n_embed rf p.ln2 (add3Core x
        (mhaCore n_embed n_head block_size rf p.sa training rnd.sa
          (layerNorm3Core n_embed rf p.ln1 x)))) =
      some (ffCore n_embed p.ffw training rnd.ff
        (layerNorm3Core n_embed rf p.ln2 (add3Core x
          (mhaCore n_embed n_head block_size rf p.sa training rnd.sa
            (layerNorm3Core n_embed rf p.ln1 x))))) := by
    refine ffForward_eq n_embed p.ffw training rnd.ff _ ?_
    simp [hC]
  have hadd2 : add3 (add3Core x (mhaCore n_embed n_head block_size rf p.sa training
      rnd.sa (layerNorm3Core n_embed rf p.ln1 x)))
      (ffCore n_embed p.ffw training rnd.ff
        (layerNorm3Core n_embed rf p.ln2 (add3Core x
          (mhaCore n_embed n_head block_size rf p.sa training rnd.sa
            (layerNorm3Core n_embed rf p.ln1 x))))) =
      some (add3Core (add3Core x (mhaCore n_embed n_head block_size rf p.sa training
        rnd.sa (layerNorm3Core n_embed rf p.ln1 x)))
        (ffCore n_embed p.ffw training rnd.ff
          (layerNorm3Core n_embed rf p.ln2 (add3Core x
            (mhaCore n_embed n_head block_size rf p.sa training rnd.sa
              (layerNorm3Core n_embed rf p.ln1 x)))))) := by
    simp [add3, hC]
  simp only [blockForward, blockCore, Option.bind_eq_bind, Option.some_bind, hln1,
    hmha, hadd1, hln2, hff, hadd2]

lemma blocksForward_eq (rf : RealFns) (ps : Nat → BlockP) (training : Bool)
    (rnds : Nat → BlockRand) (n : Nat) (x : T3)
    (hC : x.C = n_embed) (hT : x.T = block_size) :
    blocksForward n_embed n_head block_size rf ps training rnds n x =
      some (blocksCore n_embed n_head block_size rf ps training rnds n x) := by
  induction n with
  | zero => rfl
  | succ n ih =>
      simp only [blocksForward, blocksCore, ih, Option.some_bind]
      exact blockForward_eq rf (ps n) training (rnds n) _ (by simp [hC]) (by simp [hT])

@[simp] lemma logitsCore_B (V : Nat) (rf : RealFns) (p : BLMP) (tr : Bool)
    (rnds : Nat → BlockRand) (idx : T2) :
    (logitsCore V rf p tr rnds idx).B = idx.B := rfl

@[simp] lemma logitsCore_T (V : Nat) (rf : RealFns) (p : BLMP) (tr : Bool)
    (rnds : Nat → BlockRand) (idx : T2) :
    (logitsCore V rf p tr rnds idx).T = idx.T := rfl

@[simp] lemma logitsCore_C (V : Nat) (rf : RealFns) (p : BLMP) (tr : Bool)
    (rnds : Nat → BlockRand) (idx : T2) :
    (logitsCore V rf p tr rnds idx).C = V := rfl

lemma blmForward_inference_eq (V : Nat) (rf : RealFns) (p : BLMP) (training : Bool)
    (rnds : Nat → BlockRand) (idx : T2) (hT : idx.T = block_size)
    (hids : ∀ b ∈ Finset.range idx.B, ∀ t ∈ Finset.range idx.T, idx.data b t < V) :
    blmForward V rf p training rnds idx none =
      some (.inference (logitsCore V rf p training rnds idx)) := by
  have hemb : embedLookup2 V n_embed p.tokEmb idx =
      some ⟨idx.B, idx.T, n_embed, fun b t c => p.tokEmb (idx.data b t) c⟩ := by
    simp only [embedLookup2]
    rw [if_pos hids]
  have hpos : posEmbed block_size p.posEmb idx.T = some (fun t c => p.posEmb t c) := by
    simp [posEmbed, hT]
  have hblocks := blocksForward_eq rf p.blocks training rnds n_layer (embedCore p idx)
    (by simp) (by simp [hT])
  have hlnf : layerNorm3 n_embed rf p.lnf (blocksCore n_embed n_head block_size rf
      p.blocks training rnds n_layer (embedCore p idx)) =
      some (layerNorm3Core n_embed rf p.lnf (blocksCore n_embed n_head block_size rf
        p.blocks training rnds n_layer (embedCore p idx))) := by
    simp [layerNorm3]
  have hhead : linear3 n_embed V p.lmHead (layerNorm3Core n_embed rf p.lnf
      (blocksCore n_embed n_head block_size rf p.blocks training rnds n_layer
        (embedCore p idx))) =
      some (linear3Core n_embed V p.lmHead (layerNorm3Core n_embed rf p.lnf
        (blocksCore n_embed n_head block_size rf p.blocks training rnds n_layer
          (embedCore p idx)))) := by
    simp [linear3]
  simp only [embedCore] at hblocks hlnf hhead
  simp only [blmForward, Option.bind_eq_bind, Option.some_bind, hemb, hpos, logitsCore,
    embedCore, hblocks, hlnf, hhead]

set_option maxRecDepth 4000 in
set_option maxHeartbeats 2000000 in
lemma blmForward_train_eq (V : Nat) (rf : RealFns) (p : BLMP) (training : Bool)
    (rnds : Nat → BlockRand) (idx tg : T2) (hT : idx.T = block_size)
    (hids : ∀ b ∈ Finset.range idx.B, ∀ t ∈ Finset.range idx.T, idx.data b t < V)
    (htgBT : tg.B * tg.T = idx.B * idx.T)
    (htg : ∀ i ∈ Finset.range (idx.B * idx.T), tg.data (i / tg.T) (i % tg.T) < V) :
    blmForward V rf p training rnds idx (some tg) =
      some (.train
        ⟨idx.B * idx.T, V,
          fun i c => (logitsCore V rf p training rnds idx).data (i / idx.T) (i % idx.T) c⟩
        ((∑ i ∈ Finset.range (idx.B * idx.T),
          -(rf.log (softmaxRow rf.exp V
            (fun c => (logitsCore V rf p training rnds idx).data (i / idx.T) (i % idx.T) c)
            (tg.data (i / tg.T) (i % tg.T))))) / ((idx.B * idx.T : Nat) : ℚ))) := by
  have hemb : embedLookup2 V n_embed p.tokEmb idx =
      some ⟨idx.B, idx.T, n_embed, fun b t c => p.tokEmb (idx.data b t) c⟩ := by
    simp only [embedLookup2]
    rw [if_pos hids]
  have hpos : posEmbed block_size p.posEmb idx.T = some (fun t c => p.posEmb t c) := by
    simp [posEmbed, hT]
  have hblocks := blocksForward_eq rf p.blocks training rnds n_layer (embedCore p idx)
    (by simp) (by simp [hT])
  have hlnf : layerNorm3 n_embed rf p.lnf (blocksCore n_embed n_head block_size rf
      p.blocks training rnds n_layer (embedCore p idx)) =
      some (layerNorm3Core n_embed rf p.lnf (blocksCore n_embed n_head block_size rf
        p.blocks training rnds n_layer (embedCore p idx))) := by
    simp [layerNorm3]
  have hhead : linear3 n_embed V p.lmHead (layerNorm3Core n_embed rf p.lnf
      (blocksCore n_embed n_head block_size rf p.blocks training rnds n_layer
        (embedCore p idx))) =
      some (linear3Core n_embed V p.lmHead (layerNorm3Core n_embed rf p.lnf
        (blocksCore n_embed n_head block_size rf p.blocks training rnds n_layer
          (embedCore p idx)))) := by
    simp [linear3]
  simp only [embedCore] at hblocks hlnf hhead
  have hhead2 : linear3 n_embed V p.lmHead (layerNorm3Core n_embed rf p.lnf
      (blocksCore n_embed n_head block_size rf p.blocks training rnds n_layer
        ⟨idx.B, idx.T, n_embed, fun b t c => p.tokEmb (idx.data b t) c + p.posEmb t c⟩)) =
      some (logitsCore V rf p training rnds idx) := by
    rw [hhead]
    simp only [logitsCore, embedCore]
  simp only [blmForward, Option.bind_eq_bind, Option.some_bind, hemb, hpos, hblocks,
    hlnf, hhead2]
  rw [if_pos (by simp only [logitsCore_B, logitsCore_T]; exact htgBT)]
  rw [if_pos (by simp only [logitsCore_B, logitsCore_T]; exact htg)]
  rw [logitsCore_B, logitsCore_T]

lemma sum_range_mul_div_mod (B T : Nat) (g : Nat → Nat → ℚ) :
    ∑ i ∈ Finset.range (B * T), g (i / T) (i % T) =
    ∑ b ∈ Finset.range B, ∑ t ∈ Finset.range T, g b t := by
  rcases Nat.eq_zero_or_pos T with hT | hT
  · subst hT
    simp
  induction B with
  | zero => simp
  | succ B ih =>
      rw [Finset.sum_range_succ (fun b => ∑ t ∈ Finset.range T, g b t), ← ih,
        Nat.succ_mul, Finset.range_eq_Ico,
        ← Finset.sum_Ico_consecutive _ (Nat.zero_le (B * T)) (Nat.le_add_right (B * T) T)]
      congr 1
      rw [Finset.sum_Ico_eq_sum_range, Nat.Ico_zero_eq_range]
      simp only [Nat.add_sub_cancel_left]
      refine Finset.sum_congr rfl fun j hj => ?_
      have hjT : j < T := Finset.mem_range.mp hj
      have hdiv : (B * T + j) / T = B := by
        rw [Nat.add_comm, Nat.mul_comm, Nat.add_mul_div_left _ _ hT,
          Nat.div_eq_of_lt hjT, Nat.zero_add]
      have hmod : (B * T + j) % T = j := by
        rw [Nat.add_comm, Nat.add_mul_mod_self_right, Nat.mod_eq_of_lt hjT]
      rw [hdiv, hmod]

/-- Claim C6: the model forward returns a loss exactly when targets are
provided: with targets it returns the (flattened) logits together with
the categorical cross-entropy of the logits against the integer target
ids — computed over the flattened batch x time axis, and equal to the
average over all `(b, t)` positions of the per-position negative
log-softmax at the target id; without targets only the `(B, T, vocab)`
logits are produced and no loss. -/
theorem blm_forward_loss_iff_targets (V : Nat) (rf : RealFns) (p : BLMP)
    (training : Bool) (rnds : Nat → BlockRand) (idx tg : T2)
    (hT : idx.T = block_size)
    (hids : ∀ b ∈ Finset.range idx.B, ∀ t ∈ Finset.range idx.T, idx.data b t < V)
    (htgB : tg.B = idx.B) (htgT : tg.T = idx.T)
    (htg : ∀ b ∈ Finset.range tg.B, ∀ t ∈ Finset.range tg.T, tg.data b t < V) :
    blmForward V rf p training rnds idx none =
      some (.inference (logitsCore V rf p training rnds idx)) ∧
    blmForward V rf p training rnds idx (some tg) =
      some (.train
        ⟨idx.B * idx.T, V,
          fun i c => (logitsCore V rf p training rnds idx).data (i / idx.T) (i % idx.T) c⟩
        ((∑ b ∈ Finset.range idx.B, ∑ t ∈ Finset.range idx.T,
          -(rf.log (softmaxRow rf.exp V
            (fun c => (logitsCore V rf p training rnds idx).data b t c)
            (tg.data b t)))) / ((idx.B * idx.T : Nat) : ℚ))) := by
  have hTpos : 0 < idx.T := by
    rw [hT]
    simp [block_size]
  refine ⟨blmForward_inference_eq V rf p training rnds idx hT hids, ?_⟩
  have htgflat : ∀ i ∈ Finset.range (idx.B * idx.T), tg.data (i / tg.T) (i % tg.T) < V := by
    intro i hi
    have hiBT : i < idx.B * idx.T := Finset.mem_range.mp hi
    have hTpos' : 0 < tg.T := htgT ▸ hTpos
    refine htg _ (Finset.mem_range.mpr ?_) _ (Finset.mem_range.mpr (Nat.mod_lt _ hTpos'))
    rw [htgT, htgB]
    refine Nat.div_lt_of_lt_mul ?_
    rw [Nat.mul_comm]
    exact hiBT
  rw [blmForward_train_eq V rf p training rnds idx tg hT hids
    (by rw [htgB, htgT]) htgflat]
  rw [htgT]
  rw [sum_range_mul_div_mod idx.B idx.T
    (fun b t => -(rf.log (softmaxRow rf.exp V
      (fun c => (logitsCore V rf p training rnds idx).data b t c) (tg.data b t))))]

/-- Witness for C6 at a concrete batch. -/
theorem blm_forward_loss_iff_targets_witness :
    ((⟨1, 30, fun _ _ => 0⟩ : T2).T = block_size ∧
      (∀ b ∈ Finset.range (⟨1, 30, fun _ _ => 0⟩ : T2).B,
        ∀ t ∈ Finset.range (⟨1, 30, fun _ _ => 0⟩ : T2).T,
          (⟨1, 30, fun _ _ => 0⟩ : T2).data b t < 1)) ∧
    (blmForward 1 rfId blmpZero false (fun _ => blockrandZero)
        ⟨1, 30, fun _ _ => 0⟩ none =
      some (.inference (logitsCore 1 rfId blmpZero false (fun _ => blockrandZero)
        ⟨1, 30, fun _ _ => 0⟩)) ∧
    blmForward 1 rfId blmpZero false (fun _ => blockrandZero)
        ⟨1, 30, fun _ _ => 0⟩ (some ⟨1, 30, fun _ _ => 0⟩) =
      some (.train
        ⟨(⟨1, 30, fun _ _ => 0⟩ : T2).B * (⟨1, 30, fun _ _ => 0⟩ : T2).T, 1,
          fun i c => (logitsCore 1 rfId blmpZero false (fun _ => blockrandZero)
            ⟨1, 30, fun _ _ => 0⟩).data (i / (⟨1, 30, fun _ _ => 0⟩ : T2).T)
              (i % (⟨1, 30, fun _ _ => 0⟩ : T2).T) c⟩
        ((∑ b ∈ Finset.range (⟨1, 30, fun _ _ => 0⟩ : T2).B,
          ∑ t ∈ Finset.range (⟨1, 30, fun _ _ => 0⟩ : T2).T,
          -(rfId.log (softmaxRow rfId.exp 1
            (fun c => (logitsCore 1 rfId blmpZero false (fun _ => blockrandZero)
              ⟨1, 30, fun _ _ => 0⟩).data b t c)
            ((⟨1, 30, fun _ _ => 0⟩ : T2).data b t)))) /
          (((⟨1, 30, fun _ _ => 0⟩ : T2).B * (⟨1, 30, fun _ _ => 0⟩ : T2).T : Nat) : ℚ)))) :=
  ⟨⟨rfl, by decide⟩,
    blm_forward_loss_iff_targets 1 rfId blmpZero false (fun _ => blockrandZero)
      ⟨1, 30, fun _ _ => 0⟩ ⟨1, 30, fun _ _ => 0⟩ rfl (by decide) rfl rfl (by decide)⟩

lemma multinomial1_lt (V : Nat) (hV : 0 < V) (p : Nat → ℚ) (u : ℚ) :
    multinomial1 V p u < V := by
  unfold multinomial1
  rcases hE : (List.range V).findIdx?
      (fun j => u * (∑ k ∈ Finset.range V, p k) < ∑ k ∈ Finset.range (j + 1), p k)
    with _ | k
  · simp only [Option.getD_none]
    omega
  · simp only [Option.getD_some]
    have hk := (List.findIdx?_eq_some_iff_findIdx_eq.mp hE).1
    simpa using hk

lemma generateStep_eq (V : Nat) (rf : RealFns) (p : BLMP) (training : Bool)
    (rnds : Nat → BlockRand) (u : ℚ) (idx : List Nat)
    (hlen : block_size ≤ idx.length) (hids : ∀ a ∈ idx, a < V) :
    generateStep V rf p training rnds u idx =
      some (idx ++ [stepTok V rf p training rnds u
        (idx.drop (idx.length - block_size))]) := by
  have hcond : (idx.drop (idx.length - block_size)).length = block_size := by
    rw [List.length_drop]
    omega
  have hmem : ∀ t, t < (idx.drop (idx.length - block_size)).length →
      (idx.drop (idx.length - block_size)).getD t 0 < V := by
    intro t ht
    have h1 : (idx.drop (idx.length - block_size)).getD t 0 =
        (idx.drop (idx.length - block_size))[t] := by
      rw [List.getD_eq_getElem?_getD, List.getElem?_eq_getElem ht]
      rfl
    rw [h1]
    exact hids _ (List.drop_subset _ _ (List.getElem_mem ht))
  have hin := blmForward_inference_eq V rf p training rnds
    ⟨1, (idx.drop (idx.length - block_size)).length,
      fun _ t => (idx.drop (idx.length - block_size)).getD t 0⟩
    (by simpa using hcond)
    (by
      intro b hb t ht
      exact hmem t (Finset.mem_range.mp ht))
  simp only [generateStep, Option.bind_eq_bind, Option.some_bind, hin]
  simp only [stepTok, logitsCore_T]

lemma generate_spec (V : Nat) (rf : RealFns) (p : BLMP) (training : Bool)
    (rnds : Nat → BlockRand) (rand : Nat → ℚ) (hV : 0 < V) :
    ∀ k idx, block_size ≤ idx.length → (∀ a ∈ idx, a < V) →
    ∃ toks, generate V rf p training rnds rand k idx = some (idx ++ toks) ∧
      toks.length = k ∧ ∀ a ∈ toks, a < V := by
  intro k
  induction k with
  | zero =>
      intro idx h1 h2
      exact ⟨[], by simp [generate], rfl, by simp⟩
  | succ k ih =>
      intro idx h1 h2
      have hstep := generateStep_eq V rf p training rnds (rand k) idx h1 h2
      have ht0V : stepTok V rf p training rnds (rand k)
          (idx.drop (idx.length - block_size)) < V := multinomial1_lt V hV _ _
      have hlen1 : block_size ≤ (idx ++ [stepTok V rf p training rnds (rand k)
          (idx.drop (idx.length - block_size))]).length := by
        simp
        omega
      have hids1 : ∀ a ∈ idx ++ [stepTok V rf p training rnds (rand k)
          (idx.drop (idx.length - block_size))], a < V := by
        intro a ha
        rcases List.mem_append.mp ha with h | h
        · exact h2 a h
        · simp at h
          subst h
          exact ht0V
      obtain ⟨toks, hgen, hlenT, hidsT⟩ := ih _ hlen1 hids1
      refine ⟨stepTok V rf p training rnds (rand k)
        (idx.drop (idx.length - block_size)) :: toks, ?_, by simp [hlenT], ?_⟩
      · simp only [generate, hstep, Option.some_bind, hgen]
        simp
      · intro a ha
        rcases List.mem_cons.mp ha with h | h
        · subst h
          exact ht0V
        · exact hidsT a h

lemma generate_suffix_inv (V : Nat) (rf : RealFns) (p : BLMP) (training : Bool)
    (rnds : Nat → BlockRand) (rand : Nat → ℚ) (hV : 0 < V) :
    ∀ k idx idx₂, block_size ≤ idx.length → block_size ≤ idx₂.length →
      (∀ a ∈ idx, a < V) → (∀ a ∈ idx₂, a < V) →
      idx.drop (idx.length - block_size) = idx₂.drop (idx₂.length - block_size) →
      ∃ toks, generate V rf p training rnds rand k idx = some (idx ++ toks) ∧
        generate V rf p training rnds rand k idx₂ = some (idx₂ ++ toks) := by
  intro k
  induction k with
  | zero =>
      intro idx idx₂ _ _ _ _ _
      exact ⟨[], by simp [generate], by simp [generate]⟩
  | succ k ih =>
      intro idx idx₂ h1 h1' h2 h2' hsuf
      have hstep := generateStep_eq V rf p training rnds (rand k) idx h1 h2
      have hstep' := generateStep_eq V rf p training rnds (rand k) idx₂ h1' h2'
      rw [← hsuf] at hstep'
      have ht0V : stepTok V rf p training rnds (rand k)
          (idx.drop (idx.length - block_size)) < V := multinomial1_lt V hV _ _
      have hsufstep : ∀ (l : List Nat), block_size ≤ l.length →
          (l ++ [stepTok V rf p training rnds (rand k)
            (idx.drop (idx.length - block_size))]).drop
            ((l ++ [stepTok V rf p training rnds (rand k)
              (idx.drop (idx.length - block_size))]).length - block_size) =
          (l.drop (l.length - block_size)).drop 1 ++
            [stepTok V rf p training rnds (rand k)
              (idx.drop (idx.length - block_size))] := by
        intro l hl
        rw [List.length_append]
        simp only [List.length_singleton]
        rw [List.drop_append_of_le_length
          (show l.length + 1 - block_size ≤ l.length by
            simp only [block_size] at hl ⊢
            omega)]
        rw [List.drop_drop]
        congr 2
        simp only [block_size] at hl ⊢
        omega
      have hsufnew : (idx ++ [stepTok V rf p training rnds (rand k)
          (idx.drop (idx.length - block_size))]).drop
          ((idx ++ [stepTok V rf p training rnds (rand k)
            (idx.drop (idx.length - block_size))]).length - block_size) =
          (idx₂ ++ [stepTok V rf p training rnds (rand k)
            (idx.drop (idx.length - block_size))]).drop
          ((idx₂ ++ [stepTok V rf p training rnds (rand k)
            (idx.drop (idx.length - block_size))]).length - block_size) := by
        rw [hsufstep idx h1, hsufstep idx₂ h1', hsuf]
      have hids1 : ∀ a ∈ idx ++ [stepTok V rf p training rnds (rand k)
          (idx.drop (idx.length - block_size))], a < V := by
        intro a ha
        rcases List.mem_append.mp ha with h | h
        · exact h2 a h
        · simp at h
          subst h
          exact ht0V
      have hids1' : ∀ a ∈ idx₂ ++ [stepTok V rf p training rnds (rand k)
          (idx.drop (idx.length - block_size))], a < V := by
        intro a ha
        rcases List.mem_append.mp ha with h | h
        · exact h2' a h
        · simp at h
          subst h
          exact ht0V
      obtain ⟨toks, hg, hg'⟩ := ih _ _ (by simp; omega) (by simp; omega) hids1 hids1'
        hsufnew
      refine ⟨stepTok V rf p training rnds (rand k)
        (idx.drop (idx.length - block_size)) :: toks, ?_, ?_⟩
      · simp only [generate, hstep, Option.some_bind, hg]
        simp
      · simp only [generate, hstep', Option.some_bind, hg']
        simp

/-- Claim C5 (amended): with `max_new_tokens = 0`, `generate` returns the
seed unchanged for every seed; for a seed of length at least `block_size`
whose ids lie in `[0, vocab_size)` (as in the script, whose seed has
exactly `block_size` tokens), `generate` appends exactly `k` sampled ids,
each in `[0, vocab_size)`, and the appended ids depend only on the last
`block_size` tokens of the seed (a second seed with the same cropped
suffix yields the same appended tokens).  For a shorter seed and `k ≥ 1`
the forward pass inside the loop raises, because the unsliced causal mask
cannot broadcast. -/
theorem generate_appends_in_range_tokens (V : Nat) (rf : RealFns) (p : BLMP)
    (training : Bool) (rnds : Nat → BlockRand) (rand : Nat → ℚ)
    (idx idx₂ : List Nat) (k : Nat) :
    generate V rf p training rnds rand 0 idx = some idx ∧
    (0 < V → block_size ≤ idx.length → (∀ a ∈ idx, a < V) →
      ∃ toks, generate V rf p training rnds rand k idx = some (idx ++ toks) ∧
        toks.length = k ∧ (∀ a ∈ toks, a < V) ∧
        (block_size ≤ idx₂.length → (∀ a ∈ idx₂, a < V) →
          idx.drop (idx.length - block_size) =
            idx₂.drop (idx₂.length - block_size) →
          generate V rf p training rnds rand k idx₂ = some (idx₂ ++ toks))) := by
  refine ⟨rfl, ?_⟩
  intro hV hlen hids
  obtain ⟨toks, hgen, hlen', hrange⟩ :=
    generate_spec V rf p training rnds rand hV k idx hlen hids
  refine ⟨toks, hgen, hlen', hrange, ?_⟩
  intro hlen2 hids2 hsuf
  obtain ⟨toks2, hg, hg'⟩ :=
    generate_suffix_inv V rf p training rnds rand hV k idx idx₂ hlen hlen2 hids hids2
      hsuf
  rw [hgen] at hg
  obtain rfl : toks = toks2 :=
    List.append_cancel_left (Option.some_inj.mp hg)
  exact hg'

/-- Counterexample to claim C5 as stated: a seed of one in-range token
with `k = 1` makes `generate` raise (inside the forward pass, at the
causal mask broadcast) instead of returning an extended sequence. -/
theorem generate_short_seed_fails :
    (∀ a ∈ ([0] : List Nat), a < 1) ∧
    generate 1 rfId blmpZero false (fun _ => blockrandZero) (fun _ => 0) 1 [0] =
      none :=
  ⟨by decide, by rfl⟩

/-- Witness for the amended claim C5 at a full-block seed. -/
theorem generate_appends_in_range_tokens_witness :
    ((0 : Nat) < 1 ∧ block_size ≤ (List.replicate 30 0).length ∧
      (∀ a ∈ List.replicate 30 0, a < 1)) ∧
    (∃ toks, generate 1 rfId blmpZero false (fun _ => blockrandZero) (fun _ => 0) 2
        (List.replicate 30 0) = some (List.replicate 30 0 ++ toks) ∧
      toks.length = 2 ∧ (∀ a ∈ toks, a < 1) ∧
      (block_size ≤ (List.replicate 30 0).length →
        (∀ a ∈ List.replicate 30 0, a < 1) →
        (List.replicate 30 0).drop ((List.replicate 30 0).length - block_size) =
          (List.replicate 30 0).drop ((List.replicate 30 0).length - block_size) →
        generate 1 rfId blmpZero false (fun _ => blockrandZero) (fun _ => 0) 2
          (List.replicate 30 0) = some (List.replicate 30 0 ++ toks))) :=
  ⟨⟨by decide, by decide, by decide⟩,
    (generate_appends_in_range_tokens 1 rfId blmpZero false (fun _ => blockrandZero)
      (fun _ => 0) (List.replicate 30 0) (List.replicate 30 0) 2).2
      (by decide) (by decide) (by decide)⟩

